import Mathlib

/-!
Verification of the adaptive real-time synchronization engine of the
groov_dashboard frontend (src/frontend/src/lib/dates.ts, which concatenates
src/lib/dates.ts, src/lib/api.ts and src/App.tsx).

The relevant code is shallowly embedded below:
* `mergeRealtime` — the incremental snapshot merge
  `setRealtime(prev => ({ ...prev, ...(data || {}) }))` (line 342);
* `nonSelected`, `tickBatch` — the rotating-batch construction of one poll
  tick (lines 312-330);
* `delayStep` — the adaptive backoff update (lines 300-303, 346, 352, 372),
  with the JavaScript float expressions `Math.floor(delay * 0.85)` and
  `Math.floor(delay * 1.6)` read as exact rational arithmetic, i.e. as the
  natural-number divisions `d * 85 / 100` and `d * 16 / 10`;
* `interceptOn401`, `tickMe`, `tickResolve` — the resolution of a tick's
  fetch, including the axios 401 response interceptor (lines 95-114) and
  the tick's error handling (lines 337-377);
* `fstep` on `FlightSt` — the single-flight discipline of the abort
  controller slot (lines 332-335) and the effect cleanup (lines 383-387);
* `PollComponent` with `loopCleanup` / `loopStart` / `loopTick` — the
  lifetime of the component-scoped refs (lines 289-291) relative to one
  run of the polling effect (lines 293-388).
-/

namespace GroovSync

/-- Snapshot merge (src line 342): JavaScript object spread
`{ ...prev, ...data }` over maps from sensor name to latest point, modelled
as functions into `Option`: keys of `data` win, all other keys of `prev`
are carried over. -/
def mergeRealtime {V : Type} (prev data : String → Option V) :
    String → Option V :=
  fun k =>
    match data k with
    | some v => some v
    | none => prev k

/-- Non-selected sensors (src line 314):
`sensors.filter(s => !selSet.has(s))`. -/
def nonSelected (sensors sel : List String) : List String :=
  sensors.filter (fun s => !(sel.contains s))

/-- Cursor normalization at the start of a tick (src line 318):
`if (startIdx >= nonSelected.length) startIdx = 0`. -/
def cursorNorm (N c : ℕ) : ℕ := if N ≤ c then 0 else c

/-- The slice end index stored as the new cursor (src lines 319-321:
`endIdx = Math.min(startIdx + BATCH, nonSelected.length)`), as a function
of the non-selected count `N`, the batch size `B` and the incoming
cursor. -/
def tickStep (N B c : ℕ) : ℕ := min (cursorNorm N c + B) N

/-- One poll tick's batch construction (src lines 312-330).  Builds the
rotating slice of the non-selected sensors and the full list of names to
query this tick; returns `(namesToAsk, new cursor)`.  The normalized
`startIdx` of line 318 is `cursorNorm`, the slice end `endIdx` of lines
319-321 is `tickStep`, the slice of line 320 is the take/drop below, and
the new cursor is the stored `endIdx`
(`batchCursorRef.current = endIdx`, line 321). -/
def tickBatch (sensors sel : List String) (cursor B : ℕ) :
    List String × ℕ :=
  let ns := nonSelected sensors sel
  let startIdx := cursorNorm ns.length cursor
  let endIdx := tickStep ns.length B cursor
  let batch := (ns.take endIdx).drop startIdx
  let names1 := if 0 < sel.length then sel else []
  let names2 := if 0 < batch.length then names1 ++ batch else names1
  let namesToAsk :=
    if names2.length = 0 ∧ 0 < sensors.length then
      sensors.take (min B sensors.length)
    else names2
  (namesToAsk, endIdx)

/-- Cursor value after `j` ticks of the poll loop starting from `c`,
chaining `tickBatch`'s stored cursor. -/
def cursorSeq (sensors sel : List String) (B c : ℕ) : ℕ → ℕ
  | 0 => c
  | j + 1 => (tickBatch sensors sel (cursorSeq sensors sel B c j) B).2

/-- Number of ticks in one full rotation cycle, `ceil(N / B)`. -/
def ticksPerCycle (N B : ℕ) : ℕ := (N + B - 1) / B

/-- Batch size for non-selected sensors (src line 303: `const BATCH = 60`). -/
def batchSize : ℕ := 60

/-- Lower bound of the inter-tick delay (src line 301). -/
def minDelay : ℕ := 800

/-- Upper bound of the inter-tick delay (src line 302). -/
def maxDelay : ℕ := 8000

/-- Initial inter-tick delay (src line 300: `let delay = 1200`). -/
def initialDelay : ℕ := 1200

/-- Outcome of one tick as seen by the backoff update. -/
inductive DelayOutcome where
  | success
  | canceled
  | transientFail
deriving DecidableEq

/-- Backoff update after one tick (src lines 346, 352, 372):
success → `Math.max(minDelay, Math.floor(delay * 0.85))`;
cancellation → unchanged; transient failure →
`Math.min(maxDelay, Math.floor(delay * 1.6))`.  Float literals are read as
exact rationals, so the floors become natural-number divisions. -/
def delayStep (d : ℕ) : DelayOutcome → ℕ
  | .success => max minDelay (d * 85 / 100)
  | .canceled => d
  | .transientFail => min maxDelay (d * 16 / 10)

/-- Concrete snapshot used by witnesses: maps key "a" to 1. -/
def snapA : String → Option ℕ := fun k => if k = "a" then some 1 else none

/-- Concrete snapshot used by witnesses: maps key "b" to 2. -/
def snapB : String → Option ℕ := fun k => if k = "b" then some 2 else none

/-- Point kind reported by the backend (src lines 116-122). -/
inductive PointKind where
  | analog
  | digital
deriving DecidableEq

/-- Latest observed point for one sensor (src `RealPoint`, lines 116-122);
the TypeScript `value: any` is modelled as an integer sample. -/
structure RealPt where
  ts : String
  value : Int
  kind : Option PointKind
  device_ip : Option String
  endpoint : Option String

/-- User role (src line 211). -/
inductive Role where
  | admin
  | user
deriving DecidableEq

/-- Request target, as needed by the 401 interceptor's
`url.includes('/auth/me')` test (src line 102). -/
inductive Url where
  | realtime
  | authMe
deriving DecidableEq

/-- Host-visible component state touched by one tick's resolution
(src App state, lines 215-224, plus the loop-local `delay`). -/
structure AppSt where
  realtime : String → Option RealPt
  bootErr : Option String
  authed : Bool
  role : Option Role
  token : Option String
  delay : ℕ

/-- Degraded-connectivity message (src line 371). -/
def degradedMsg : String := "Tiempo real degradado (red/servidor). Reintentando…"

/-- Session-expired message (src line 365). -/
def expiredMsg : String := "Sesión expirada. Inicia sesión nuevamente."

/-- Axios response interceptor on a 401 error (src lines 95-114): if the
failing URL is the session check itself, clear the token and stop; if no
token is held, clear and stop; otherwise issue one `/auth/me` network call —
on success keep the token and propagate the original error, on failure the
inner call's own interceptor run and the outer catch clear the token.
Returns the resulting token and the number of `/auth/me` network calls. -/
def interceptOn401 (url : Url) (token : Option String)
    (sessionValid : Bool) : Option String × ℕ :=
  if url = Url.authMe then (none, 0)
  else
    match token with
    | none => (none, 0)
    | some t => if sessionValid then (some t, 1) else (none, 1)

/-- The tick's session revalidation `await me()` (src line 359), including
the interceptor effect on its own 401: the call succeeds iff a token is
held and the session is valid; on failure the token is cleared.  Returns
(success, resulting token, number of `/auth/me` network calls). -/
def tickMe (token : Option String) (sessionValid : Bool) :
    Bool × Option String × ℕ :=
  if token.isSome && sessionValid then (true, token, 1)
  else (false, none, 1)

/-- Result of the tick's `fetchRealtime` call as seen by the tick body. -/
inductive FetchResult where
  | ok (data : String → Option RealPt)
  | canceled
  | err (status : Option ℕ)

/-- Resolution of one tick's fetch (src lines 337-377): on success, merge
the partial response, clear the error banner and shrink the delay; on an
intentional cancellation, change nothing and reschedule; on a 401, the
response interceptor has already run, then the tick revalidates with
`me()` — continuing as a transient failure if it succeeds, halting with
credential cleared and the host notified otherwise; on any other failure,
raise the degraded banner and grow the delay.  Returns
(new state, whether the next tick is scheduled, `/auth/me` call count). -/
def tickResolve (st : AppSt) (res : FetchResult) (sessionValid : Bool) :
    AppSt × Bool × ℕ :=
  match res with
  | .ok data =>
      ({ st with realtime := mergeRealtime st.realtime data,
                 bootErr := none,
                 delay := max minDelay (st.delay * 85 / 100) }, true, 0)
  | .canceled => (st, true, 0)
  | .err status =>
      let ic :=
        if status = some 401 then
          interceptOn401 Url.realtime st.token sessionValid
        else (st.token, 0)
      if status = some 401 then
        let mc := tickMe ic.1 sessionValid
        if mc.1 then
          ({ st with token := mc.2.1,
                     bootErr := some degradedMsg,
                     delay := min maxDelay (st.delay * 16 / 10) },
           true, ic.2 + mc.2.2)
        else
          ({ st with authed := false, role := none, token := none,
                     bootErr := some expiredMsg }, false, ic.2 + mc.2.2)
      else
        ({ st with token := ic.1,
                   bootErr := some degradedMsg,
                   delay := min maxDelay (st.delay * 16 / 10) },
         true, ic.2)

/-- Concrete component state used by witnesses and counterexamples: an
authenticated admin holding token "t" at the initial delay. -/
def stW : AppSt :=
  { realtime := fun _ => none, bootErr := none, authed := true,
    role := some Role.admin, token := some "t", delay := initialDelay }

/-- State of one poll-loop instance's request management: the ids of
in-flight, non-aborted requests, the abort-controller slot
`pollAbortRef.current` (src line 289), the next fresh request id, the
pending-timer flag and the `alive` flag of the effect run. -/
structure FlightSt where
  outstanding : List ℕ
  pollAbort : Option ℕ
  nextId : ℕ
  timerSet : Bool
  alive : Bool

/-- Abort of the controller held in the slot (src line 333:
`if (pollAbortRef.current) pollAbortRef.current.abort()`): the request tied
to that controller, if still in flight, dies. -/
def abortCurrent (s : FlightSt) : FlightSt :=
  match s.pollAbort with
  | some i => { s with outstanding := s.outstanding.filter (fun j => j ≠ i) }
  | none => s

/-- Events of the loop instance: issuing a tick's request (src lines
332-335), a request resolving, and teardown — the effect cleanup run on
logout, role change, unmount or halt (src lines 383-387). -/
inductive FEvent where
  | issue
  | resolve (i : ℕ)
  | teardown

/-- One step of the request-management machine.  `issue` aborts the
previous controller, installs a fresh one in the slot and starts the new
request; `resolve i` completes request `i`; `teardown` clears the timer and
aborts the in-flight request. -/
def fstep (s : FlightSt) : FEvent → FlightSt
  | .issue =>
      if s.alive then
        let s1 := abortCurrent s
        { s1 with outstanding := s1.outstanding ++ [s.nextId],
                  pollAbort := some s.nextId,
                  nextId := s.nextId + 1 }
      else s
  | .resolve i => { s with outstanding := s.outstanding.filter (fun j => j ≠ i) }
  | .teardown =>
      let s1 := abortCurrent s
      { s1 with alive := false, timerSet := false }

/-- Initial state of a loop instance: no request in flight, empty abort
slot, first-tick timer armed (src line 381). -/
def initFlight : FlightSt :=
  { outstanding := [], pollAbort := none, nextId := 0,
    timerSet := true, alive := true }

/-- Invariant of the request machine: at most one request is in flight, and
any in-flight request is the one held by the abort slot. -/
def FlightInv (s : FlightSt) : Prop :=
  s.outstanding.length ≤ 1 ∧ ∀ i ∈ s.outstanding, s.pollAbort = some i

/-- Component-scoped poll bookkeeping: the rotation cursor ref
`batchCursorRef` (src line 291) lives at component scope, while the `alive`
flag and the pending timer belong to one run of the polling effect. -/
structure PollComponent where
  batchCursor : ℕ
  loopAlive : Bool
  timerSet : Bool

/-- Effect cleanup (src lines 383-387): kills the run and clears the timer;
the component-scoped cursor ref is not touched. -/
def loopCleanup (p : PollComponent) : PollComponent :=
  { p with loopAlive := false, timerSet := false }

/-- Effect (re)start (src lines 298-299, 381): arms the warm-up timer for a
fresh run; the component-scoped cursor ref is not touched. -/
def loopStart (p : PollComponent) : PollComponent :=
  { p with loopAlive := true, timerSet := true }

/-- One tick's effect on the component: the cursor ref is advanced to the
slice end stored by `tickBatch` (src line 321). -/
def loopTick (sensors sel : List String) (B : ℕ) (p : PollComponent) :
    PollComponent :=
  { p with batchCursor := (tickBatch sensors sel p.batchCursor B).2 }

/-- Cursor value at position `k` of the rotation cycle over `N`
non-selected sensors with batch size `B`: the `k`-th multiple of `B`,
capped at `N`.  These are exactly the cursor values `tickStep` produces. -/
def rotPos (N B k : ℕ) : ℕ := min (k * B) N

/-- An out-of-range cursor is normalized to 0 at the start of a tick. -/
theorem cursorNorm_of_le (N c : ℕ) (h : N ≤ c) : cursorNorm N c = 0 :=
  if_pos h

/-- Normalization of the zero cursor is zero. -/
theorem cursorNorm_zero (N : ℕ) : cursorNorm N 0 = 0 := by
  unfold cursorNorm
  split <;> rfl

/-- An out-of-range cursor steps exactly like the zero cursor. -/
theorem tickStep_of_le (N B c : ℕ) (h : N ≤ c) :
    tickStep N B c = tickStep N B 0 := by
  unfold tickStep
  rw [cursorNorm_of_le N c h, cursorNorm_zero]

/-- Folding a sequence of partial responses into the snapshot gives, at
each key, the value of the most recently received response containing that
key, or the original value when none of them contains it. -/
theorem foldl_merge_lastWins {V : Type} (current : String → Option V)
    (parts : List (String → Option V)) (k : String) :
    List.foldl mergeRealtime current parts k =
      match parts.reverse.findSome? (fun p => p k) with
      | some v => some v
      | none => current k := by
  induction parts generalizing current with
  | nil => simp
  | cons p ps ih =>
    rw [List.foldl_cons, ih, List.reverse_cons]
    cases h : ps.reverse.findSome? (fun q => q k) with
    | some v =>
      have : (ps.reverse ++ [p]).findSome? (fun q => q k) = some v := by
        rw [List.findSome?_append, h]
        rfl
      rw [this]
    | none =>
      have hnil : ∀ q ∈ ps.reverse, q k = none :=
        List.findSome?_eq_none_iff.mp h
      have happ : (ps.reverse ++ [p]).findSome? (fun q => q k) =
          [p].findSome? (fun q => q k) := by
        rw [List.findSome?_append, h]
        rfl
      rw [happ]
      cases hp : p k with
      | some v => simp [mergeRealtime, List.findSome?_cons, hp]
      | none => simp [mergeRealtime, List.findSome?_cons, hp]

/-- C1: the merged snapshot maps every key of the partial response to the
partial response's value, carries over every other key of the current
snapshot unchanged, and contains no key outside the union of the two; over
any sequence of sequentially applied partial responses, a key once present
is never removed and its value is the one from the most recently received
response containing it. -/
theorem c1_merge_semantics {V : Type} (current part : String → Option V)
    (k : String) :
    (∀ v, part k = some v → mergeRealtime current part k = some v)
    ∧ (part k = none → mergeRealtime current part k = current k)
    ∧ (mergeRealtime current part k = none →
        current k = none ∧ part k = none)
    ∧ ∀ parts : List (String → Option V),
        (List.foldl mergeRealtime current parts k =
          match parts.reverse.findSome? (fun p => p k) with
          | some v => some v
          | none => current k)
        ∧ (∀ v, current k = some v →
            ∃ w, List.foldl mergeRealtime current parts k = some w)
        ∧ (∀ p ∈ parts, ∀ v, p k = some v →
            ∃ w, List.foldl mergeRealtime current parts k = some w) := by
  refine ⟨?_, ?_, ?_, ?_⟩
  · intro v hv
    simp [mergeRealtime, hv]
  · intro hv
    simp [mergeRealtime, hv]
  · intro hnone
    unfold mergeRealtime at hnone
    cases hp : part k with
    | some v => rw [hp] at hnone; exact absurd hnone (by simp)
    | none => rw [hp] at hnone; exact ⟨hnone, rfl⟩
  · intro parts
    refine ⟨foldl_merge_lastWins current parts k, ?_, ?_⟩
    · intro v hv
      rw [foldl_merge_lastWins]
      cases h : parts.reverse.findSome? (fun p => p k) with
      | some w => exact ⟨w, rfl⟩
      | none => exact ⟨v, hv⟩
    · intro p hp v hv
      rw [foldl_merge_lastWins]
      cases h : parts.reverse.findSome? (fun p => p k) with
      | some w => exact ⟨w, rfl⟩
      | none =>
        have := List.findSome?_eq_none_iff.mp h p (by
          simpa using hp)
        rw [this] at hv
        exact absurd hv (by simp)

/-- Witness for C1 at concrete snapshots: merging `snapB` over `snapA`
keeps key "a" bound to its current value 1 since "b"-only data omits it. -/
theorem c1_merge_semantics_witness :
    mergeRealtime snapA snapB "a" = snapA "a" :=
  (c1_merge_semantics snapA snapB "a").2.1 rfl

/-- Backoff invariant helper: one `delayStep` keeps the delay inside
`[minDelay, maxDelay]`. -/
theorem delayStep_bounds (d : ℕ) (o : DelayOutcome)
    (h1 : minDelay ≤ d) (h2 : d ≤ maxDelay) :
    minDelay ≤ delayStep d o ∧ delayStep d o ≤ maxDelay := by
  cases o with
  | success =>
    constructor
    · exact le_max_left _ _
    · refine max_le (by norm_num [minDelay, maxDelay]) ?_
      have ha : d * 85 ≤ 8000 * 85 :=
        Nat.mul_le_mul_right 85 (by simpa [maxDelay] using h2)
      have hb : d * 85 / 100 ≤ 8000 * 85 / 100 := Nat.div_le_div_right ha
      calc d * 85 / 100 ≤ 8000 * 85 / 100 := hb
        _ ≤ maxDelay := by norm_num [maxDelay]
  | canceled => exact ⟨h1, h2⟩
  | transientFail =>
    constructor
    · refine le_min (by norm_num [minDelay, maxDelay]) ?_
      have ha : 800 * 16 ≤ d * 16 :=
        Nat.mul_le_mul_right 16 (by simpa [minDelay] using h1)
      have hb : 800 * 16 / 10 ≤ d * 16 / 10 := Nat.div_le_div_right ha
      calc minDelay ≤ 800 * 16 / 10 := by norm_num [minDelay]
        _ ≤ d * 16 / 10 := hb
    · exact min_le_left _ _

/-- Backoff invariant helper: folding any outcome sequence from a delay
inside the bounds stays inside the bounds. -/
theorem foldl_delay_bounds (os : List DelayOutcome) :
    ∀ d, minDelay ≤ d → d ≤ maxDelay →
      minDelay ≤ List.foldl delayStep d os
      ∧ List.foldl delayStep d os ≤ maxDelay := by
  induction os with
  | nil => intro d h1 h2; exact ⟨h1, h2⟩
  | cons o os ih =>
    intro d h1 h2
    obtain ⟨g1, g2⟩ := delayStep_bounds d o h1 h2
    exact ih (delayStep d o) g1 g2

/-- C3: starting from delay 1200 with minDelay 800 and maxDelay 8000, each
tick outcome updates the delay by the multiplicative rules (success shrinks
by the factor 0.85 clamped below, transient failure grows by the factor 1.6
clamped above, cancellation leaves it unchanged), and therefore every
outcome sequence keeps the delay within `[minDelay, maxDelay]`. -/
theorem c3_backoff_bounds :
    (∀ d, delayStep d DelayOutcome.success = max minDelay (d * 85 / 100))
    ∧ (∀ d, delayStep d DelayOutcome.canceled = d)
    ∧ (∀ d, delayStep d DelayOutcome.transientFail
        = min maxDelay (d * 16 / 10))
    ∧ ∀ os : List DelayOutcome,
        minDelay ≤ List.foldl delayStep initialDelay os
        ∧ List.foldl delayStep initialDelay os ≤ maxDelay := by
  refine ⟨fun d => rfl, fun d => rfl, fun d => rfl, fun os => ?_⟩
  exact foldl_delay_bounds os initialDelay
    (by norm_num [minDelay, initialDelay])
    (by norm_num [maxDelay, initialDelay])

/-- C4: every tick's list of names to query contains every member of the
selected set, for any non-empty selection, regardless of the cursor, the
universe, or the rotation slice. -/
theorem c4_selected_priority (sensors sel : List String) (c B : ℕ)
    (hsel : sel ≠ []) : ∀ x ∈ sel, x ∈ (tickBatch sensors sel c B).1 := by
  intro x hx
  have hlen : 0 < sel.length := List.length_pos.mpr hsel
  simp only [tickBatch, if_pos hlen]
  set batch := ((nonSelected sensors sel).take
      (tickStep (nonSelected sensors sel).length B c)).drop
      (cursorNorm (nonSelected sensors sel).length c) with hbatch
  by_cases hb : 0 < batch.length
  · rw [if_pos hb]
    have hne : ¬((sel ++ batch).length = 0 ∧ 0 < sensors.length) := by
      intro hcontra
      have := hcontra.1
      rw [List.length_append] at this
      omega
    rw [if_neg hne]
    exact List.mem_append_left _ hx
  · rw [if_neg hb]
    have hne : ¬(sel.length = 0 ∧ 0 < sensors.length) := by
      intro hcontra
      omega
    rw [if_neg hne]
    exact hx

/-- Witness for C4: with universe `[A,B,C]`, selection `[A]`, cursor 5 and
batch size 2, the queried names contain the selected sensor A. -/
theorem c4_selected_priority_witness :
    "A" ∈ (tickBatch ["A", "B", "C"] ["A"] 5 2).1 :=
  c4_selected_priority ["A", "B", "C"] ["A"] 5 2 (by decide) "A"
    (by decide)

/-- Stored cursor of one tick, in closed form. -/
theorem tickBatch_snd (sensors sel : List String) (c B : ℕ) :
    (tickBatch sensors sel c B).2 =
      tickStep (nonSelected sensors sel).length B c := rfl

/-- C7 fails on the code: in the spec's own scenario (universe
`[A,B,C,D,E]`, selected `[A]`, batch size 2), tick 1 from cursor 0 queries
`[A,B,C]` and stores cursor 2, but tick 2 queries `[A,D,E]` and stores
cursor 4 — not 0 as the claim asserts: the stored cursor is the raw slice
end index, never wrapped at store time. -/
theorem c7_cursor_counterexample :
    tickBatch ["A", "B", "C", "D", "E"] ["A"] 0 2 = (["A", "B", "C"], 2)
    ∧ tickBatch ["A", "B", "C", "D", "E"] ["A"] 2 2 = (["A", "D", "E"], 4)
    ∧ (tickBatch ["A", "B", "C", "D", "E"] ["A"] 2 2).2 ≠ 0 := by
  refine ⟨?_, ?_, ?_⟩ <;> decide

/-- C7 (amended): after a tick, the stored cursor equals the normalized
start index plus the slice length — it is not wrapped to 0 upon reaching
`len(nonSelected)`; the wrap to 0 is applied lazily at the start of the
next tick.  In the scenario, tick 1 queries `[A,B,C]` leaving cursor 2,
tick 2 queries `[A,D,E]` leaving cursor 4, and tick 3 then starts over,
querying `[A,B,C]` again. -/
theorem c7_cursor_amended :
    (∀ (sensors sel : List String) (c B : ℕ),
      (tickBatch sensors sel c B).2 =
        cursorNorm (nonSelected sensors sel).length c
          + min B ((nonSelected sensors sel).length
              - cursorNorm (nonSelected sensors sel).length c))
    ∧ tickBatch ["A", "B", "C", "D", "E"] ["A"] 0 2 = (["A", "B", "C"], 2)
    ∧ tickBatch ["A", "B", "C", "D", "E"] ["A"] 2 2 = (["A", "D", "E"], 4)
    ∧ tickBatch ["A", "B", "C", "D", "E"] ["A"] 4 2
        = (["A", "B", "C"], 2) := by
  refine ⟨?_, by decide, by decide, by decide⟩
  intro sensors sel c B
  rw [tickBatch_snd]
  unfold tickStep cursorNorm
  by_cases h : (nonSelected sensors sel).length ≤ c
  · simp only [if_pos h]
    omega
  · simp only [if_neg h]
    omega

/-- C6 fails on the code: for a tick failing with 401 while a credential is
held and the session is still valid, the engine performs two `/auth/me`
session-check calls — one by the axios response interceptor and one by the
tick handler — not exactly one as claimed. -/
theorem c6_session_check_counterexample :
    (tickResolve stW (FetchResult.err (some 401)) true).2.2 = 2
    ∧ (tickResolve stW (FetchResult.err (some 401)) true).2.2 ≠ 1 := by
  exact ⟨rfl, by decide⟩

/-- C6 (amended): for every tick failing with a 401 while a credential is
held, the engine performs exactly two session-check calls (the interceptor's
revalidation and the tick's `me()`); if the session is still valid the
failure is treated as transient — the loop continues and the delay grows
exactly once — and otherwise the loop halts, the credential is cleared and
the host is notified to re-authenticate.  When no credential is held, only
the tick's check runs (one call) and the loop halts the same way. -/
theorem c6_session_check_amended (st : AppSt) (v : Bool) :
    (∀ t, st.token = some t →
      tickResolve st (FetchResult.err (some 401)) v =
        (if v then
          { st with token := st.token,
                    bootErr := some degradedMsg,
                    delay := min maxDelay (st.delay * 16 / 10) }
         else
          { st with authed := false, role := none, token := none,
                    bootErr := some expiredMsg },
         v, 2))
    ∧ (st.token = none →
        tickResolve st (FetchResult.err (some 401)) v =
          ({ st with authed := false, role := none, token := none,
                     bootErr := some expiredMsg }, false, 1)) := by
  constructor
  · intro t ht
    cases v with
    | true => simp [tickResolve, interceptOn401, tickMe, ht]
    | false => simp [tickResolve, interceptOn401, tickMe, ht]
  · intro ht
    cases v with
    | true => simp [tickResolve, interceptOn401, tickMe, ht]
    | false => simp [tickResolve, interceptOn401, tickMe, ht]

/-- Witness for the amended C6 at a concrete state: with token "t" held and
the session confirmed invalid, the tick halts the loop and clears the
credential. -/
theorem c6_session_check_amended_witness :
    tickResolve stW (FetchResult.err (some 401)) false =
      ({ stW with authed := false, role := none, token := none,
                  bootErr := some expiredMsg }, false, 2) := by
  have h := (c6_session_check_amended stW false).1 "t" rfl
  simpa using h

/-- C8: a cancelled request is fully absorbed — the snapshot, the backoff
delay and the error banner are unchanged, no session check is performed,
and the loop simply reschedules the next tick after the current delay. -/
theorem c8_cancellation_absorbed (st : AppSt) (v : Bool) :
    (tickResolve st FetchResult.canceled v).1.realtime = st.realtime
    ∧ (tickResolve st FetchResult.canceled v).1.delay = st.delay
    ∧ (tickResolve st FetchResult.canceled v).1.bootErr = st.bootErr
    ∧ (tickResolve st FetchResult.canceled v).1 = st
    ∧ (tickResolve st FetchResult.canceled v).2.1 = true
    ∧ (tickResolve st FetchResult.canceled v).2.2 = 0 :=
  ⟨rfl, rfl, rfl, rfl, rfl, rfl⟩

/-- C10: every successful tick merges the response and clears the
host-visible error banner, so a degradation message raised by an earlier
transient failure never persists past the first subsequent success. -/
theorem c10_success_clears_error (st : AppSt)
    (data : String → Option RealPt) (v : Bool) :
    (tickResolve st (FetchResult.ok data) v).1.bootErr = none
    ∧ (tickResolve st (FetchResult.ok data) v).1.realtime
        = mergeRealtime st.realtime data
    ∧ (tickResolve st (FetchResult.ok data) v).2.1 = true :=
  ⟨rfl, rfl, rfl⟩

/-- Under the invariant, aborting the slot's controller leaves no request
in flight. -/
theorem abortCurrent_empty (s : FlightSt) (h : FlightInv s) :
    (abortCurrent s).outstanding = [] := by
  unfold abortCurrent
  cases hpa : s.pollAbort with
  | none =>
    simp only
    rw [List.eq_nil_iff_forall_not_mem]
    intro i hi
    have := h.2 i hi
    rw [hpa] at this
    exact absurd this (by simp)
  | some a =>
    simp only
    rw [List.eq_nil_iff_forall_not_mem]
    intro i hi
    rw [List.mem_filter] at hi
    have := h.2 i hi.1
    rw [hpa] at this
    have hia : i = a := by
      injection this with h2
      exact h2.symm
    have := hi.2
    simp [hia] at this

/-- The invariant is preserved by every event. -/
theorem flightInv_step (s : FlightSt) (e : FEvent) (h : FlightInv s) :
    FlightInv (fstep s e) := by
  cases e with
  | issue =>
    unfold fstep
    by_cases ha : s.alive
    · simp only [if_pos ha]
      have he := abortCurrent_empty s h
      constructor
      · simp [he]
      · intro i hi
        simp [he] at hi
        simp [hi]
    · simp only [if_neg ha]
      exact h
  | resolve i =>
    refine ⟨?_, ?_⟩
    · show (s.outstanding.filter (fun j => j ≠ i)).length ≤ 1
      exact le_trans (List.length_filter_le _ _) h.1
    · intro j hj
      have hj2 : j ∈ s.outstanding.filter (fun j => j ≠ i) := hj
      rw [List.mem_filter] at hj2
      exact h.2 j hj2.1
  | teardown =>
    refine ⟨?_, ?_⟩
    · show ((abortCurrent s).outstanding).length ≤ 1
      rw [abortCurrent_empty s h]
      simp
    · intro i hi
      have hi2 : i ∈ (abortCurrent s).outstanding := hi
      rw [abortCurrent_empty s h] at hi2
      exact absurd hi2 (by simp)

/-- Every state reachable from the initial state satisfies the invariant. -/
theorem flightInv_reachable (events : List FEvent) :
    FlightInv (List.foldl fstep initFlight events) := by
  have base : FlightInv initFlight := by
    constructor
    · simp [initFlight]
    · intro i hi
      simp [initFlight] at hi
  have main : ∀ (es : List FEvent) (s : FlightSt), FlightInv s →
      FlightInv (List.foldl fstep s es) := by
    intro es
    induction es with
    | nil => intro s hs; exact hs
    | cons e es ih =>
      intro s hs
      exact ih (fstep s e) (flightInv_step s e hs)
  exact main events initFlight base

/-- C5: in every reachable state of a loop instance, at most one request is
in flight; issuing a new request first aborts the outstanding one, so the
new request is the only one in flight; and teardown — run on every exit
path — leaves no request in flight and no pending timer. -/
theorem c5_single_flight (events : List FEvent) :
    (List.foldl fstep initFlight events).outstanding.length ≤ 1
    ∧ ((List.foldl fstep initFlight events).alive = true →
        (fstep (List.foldl fstep initFlight events) FEvent.issue).outstanding
          = [(List.foldl fstep initFlight events).nextId])
    ∧ (fstep (List.foldl fstep initFlight events) FEvent.teardown).outstanding
        = []
    ∧ (fstep (List.foldl fstep initFlight events) FEvent.teardown).timerSet
        = false := by
  have hinv := flightInv_reachable events
  set s := List.foldl fstep initFlight events with hs
  refine ⟨hinv.1, ?_, ?_, ?_⟩
  · intro ha
    unfold fstep
    simp only [if_pos ha]
    simp [abortCurrent_empty s hinv]
  · unfold fstep
    simp [abortCurrent_empty s hinv]
  · unfold fstep
    cases hpa : s.pollAbort <;> simp [abortCurrent, hpa]

/-- Witness for C5 at a concrete trace: after one issue event the loop is
alive and issuing again leaves exactly the fresh request in flight. -/
theorem c5_single_flight_witness :
    (fstep (List.foldl fstep initFlight [FEvent.issue]) FEvent.issue).outstanding
      = [(List.foldl fstep initFlight [FEvent.issue]).nextId] :=
  (c5_single_flight [FEvent.issue]).2.1 rfl

/-- C9 fails on the code: the cursor ref survives a loop stop/start.  With
universe `[s1,s2,s3]`, empty selection and batch size 60, one tick stores
cursor 3; stopping and restarting the loop (as a universe change does)
leaves the cursor at 3, not 0 — and against the shrunken universe `[s1]`
the cursor exceeds `len(nonSelected) = 1`, violating the claimed
invariant. -/
theorem c9_cursor_lifetime_counterexample :
    (loopStart (loopCleanup
        (loopTick ["s1", "s2", "s3"] [] 60
          { batchCursor := 0, loopAlive := true, timerSet := true }))).batchCursor
      = 3
    ∧ (loopStart (loopCleanup
        (loopTick ["s1", "s2", "s3"] [] 60
          { batchCursor := 0, loopAlive := true, timerSet := true }))).batchCursor
      ≠ 0
    ∧ (nonSelected ["s1"] []).length <
        (loopStart (loopCleanup
          (loopTick ["s1", "s2", "s3"] [] 60
            { batchCursor := 0, loopAlive := true, timerSet := true }))).batchCursor := by
  refine ⟨?_, ?_, ?_⟩ <;> decide

/-- C9 (amended): the rotation cursor is stored in a component-scoped ref
and survives loop stop/start, so a restarted loop resumes at the previous
cursor rather than 0; after each tick the stored cursor is at most the
length of that tick's non-selected list, but after the universe shrinks it
may exceed the current length until the next tick, which normalizes any
out-of-range cursor to 0 before slicing. -/
theorem c9_cursor_lifetime_amended (p : PollComponent)
    (sensors sel : List String) (B : ℕ) :
    (loopStart (loopCleanup p)).batchCursor = p.batchCursor
    ∧ (loopTick sensors sel B p).batchCursor
        ≤ (nonSelected sensors sel).length
    ∧ ((nonSelected sensors sel).length ≤ p.batchCursor →
        tickBatch sensors sel p.batchCursor B = tickBatch sensors sel 0 B) := by
  refine ⟨rfl, ?_, ?_⟩
  · show (tickBatch sensors sel p.batchCursor B).2 ≤ _
    rw [tickBatch_snd]
    exact min_le_right _ _
  · intro h
    have h1 := cursorNorm_of_le (nonSelected sensors sel).length
      p.batchCursor h
    have h2 := tickStep_of_le (nonSelected sensors sel).length B
      p.batchCursor h
    simp [tickBatch, h1, h2, cursorNorm_zero]

/-- Witness for the amended C9: with cursor 3 against the shrunken universe
`[s1]`, the next tick behaves exactly as a tick from cursor 0. -/
theorem c9_cursor_lifetime_amended_witness :
    tickBatch ["s1"] [] 3 60 = tickBatch ["s1"] [] 0 60 :=
  (c9_cursor_lifetime_amended
    { batchCursor := 3, loopAlive := true, timerSet := true }
    ["s1"] [] 60).2.2 (by decide)

/-- One full rotation over a positive universe takes at least one tick. -/
theorem one_le_ticksPerCycle (N B : ℕ) (hB : 0 < B) (hN : 0 < N) :
    1 ≤ ticksPerCycle N B := by
  unfold ticksPerCycle
  rw [Nat.le_div_iff_mul_le hB]
  omega

/-- A full cycle of batches is long enough to cover the universe. -/
theorem le_ticksPerCycle_mul (N B : ℕ) (hB : 0 < B) :
    N ≤ ticksPerCycle N B * B := by
  unfold ticksPerCycle
  have hdm := Nat.div_add_mod (N + B - 1) B
  have hmod : (N + B - 1) % B < B := Nat.mod_lt _ hB
  rw [Nat.mul_comm]
  generalize hx : B * ((N + B - 1) / B) = x at hdm ⊢
  generalize hy : (N + B - 1) % B = y at hdm hmod
  omega

/-- Every cycle position strictly before the last starts strictly inside
the universe. -/
theorem mul_lt_of_lt_ticksPerCycle (N B k : ℕ) (hB : 0 < B)
    (hk : k < ticksPerCycle N B) : k * B < N := by
  have h1 : (k + 1) * B ≤ ticksPerCycle N B * B :=
    Nat.mul_le_mul_right B (by omega)
  have h2 : ticksPerCycle N B * B ≤ N + B - 1 := by
    unfold ticksPerCycle
    exact Nat.div_mul_le_self _ _
  have h3 : (k + 1) * B = k * B + B := by ring
  generalize hx : k * B = x at h3 ⊢
  generalize hy : (k + 1) * B = y at h1 h3
  generalize hz : ticksPerCycle N B * B = z at h1 h2
  omega

/-- One stored-cursor step from a cycle position moves to the next cycle
position, wrapping to position 1 from the cycle's end. -/
theorem tickStep_rotPos (N B k : ℕ) :
    tickStep N B (rotPos N B k) =
      if k * B < N then rotPos N B (k + 1) else rotPos N B 1 := by
  by_cases h : k * B < N
  · rw [if_pos h]
    have e1 : rotPos N B k = k * B := min_eq_left h.le
    rw [e1]
    unfold tickStep cursorNorm rotPos
    rw [if_neg (by omega)]
    congr 1
    ring
  · rw [if_neg h]
    have e1 : rotPos N B k = N := min_eq_right (by omega)
    rw [e1]
    unfold tickStep cursorNorm rotPos
    rw [if_pos le_rfl]
    congr 1
    ring

/-- Iterating the stored-cursor step within one cycle advances the cycle
position linearly. -/
theorem iter_rotPos (N B : ℕ) (hB : 0 < B) :
    ∀ (j t : ℕ), t + j ≤ ticksPerCycle N B →
      (tickStep N B)^[j] (rotPos N B t) = rotPos N B (t + j) := by
  intro j
  induction j with
  | zero =>
    intro t ht
    simp
  | succ j ih =>
    intro t ht
    have htm : t < ticksPerCycle N B := by omega
    have htB : t * B < N := mul_lt_of_lt_ticksPerCycle N B t hB htm
    rw [Function.iterate_succ_apply, tickStep_rotPos N B t, if_pos htB,
      ih (t + 1) (by omega)]
    congr 1
    omega

/-- Iterating the stored-cursor step across the cycle's end wraps to the
corresponding position of the next cycle. -/
theorem iter_rotPos_wrap (N B t r : ℕ) (hB : 0 < B)
    (ht : t ≤ ticksPerCycle N B) (hr1 : 1 ≤ r)
    (hr : r ≤ ticksPerCycle N B) :
    (tickStep N B)^[r + (ticksPerCycle N B - t)] (rotPos N B t)
      = rotPos N B r := by
  rw [Function.iterate_add_apply]
  have h1 : (tickStep N B)^[ticksPerCycle N B - t] (rotPos N B t)
      = rotPos N B (ticksPerCycle N B) := by
    rw [iter_rotPos N B hB (ticksPerCycle N B - t) t (by omega)]
    congr 1
    omega
  rw [h1]
  have hNm : ¬(ticksPerCycle N B * B < N) := by
    have := le_ticksPerCycle_mul N B hB
    omega
  obtain ⟨r2, rfl⟩ : ∃ r2, r = r2 + 1 := ⟨r - 1, by omega⟩
  rw [Function.iterate_succ_apply, tickStep_rotPos N B _, if_neg hNm,
    iter_rotPos N B hB r2 1 (by omega)]
  congr 1
  omega

/-- Every cursor value reachable by iterating the stored-cursor step from
0 is a cycle position inside the cycle. -/
theorem reachable_rotPos (N B : ℕ) (hB : 0 < B) (hN : 0 < N) :
    ∀ k, ∃ t, t ≤ ticksPerCycle N B ∧
      (tickStep N B)^[k] 0 = rotPos N B t := by
  intro k
  induction k with
  | zero =>
    refine ⟨0, Nat.zero_le _, ?_⟩
    simp [rotPos]
  | succ k ih =>
    obtain ⟨t, ht, e⟩ := ih
    rw [Function.iterate_succ_apply', e, tickStep_rotPos N B t]
    by_cases h : t * B < N
    · rw [if_pos h]
      refine ⟨t + 1, ?_, rfl⟩
      by_contra hc
      have hteq : t = ticksPerCycle N B := by omega
      subst hteq
      have := le_ticksPerCycle_mul N B hB
      omega
    · rw [if_neg h]
      exact ⟨1, one_le_ticksPerCycle N B hB hN, rfl⟩

/-- Core coverage argument: starting from any cycle position, within one
full cycle of ticks there is a tick whose slice bounds enclose any given
index of the universe. -/
theorem coverage_core (N B t i : ℕ) (hB : 0 < B) (hN : 0 < N)
    (ht : t ≤ ticksPerCycle N B) (hi : i < N) :
    ∃ j, j < ticksPerCycle N B ∧
      cursorNorm N ((tickStep N B)^[j] (rotPos N B t)) ≤ i ∧
      i < tickStep N B ((tickStep N B)^[j] (rotPos N B t)) := by
  have hm1 := one_le_ticksPerCycle N B hB hN
  have hum : i / B < ticksPerCycle N B := by
    rw [Nat.div_lt_iff_lt_mul hB]
    have hle := le_ticksPerCycle_mul N B hB
    generalize hz : ticksPerCycle N B * B = z at hle ⊢
    omega
  have huB : i / B * B ≤ i := Nat.div_mul_le_self i B
  have hiuB : i < i / B * B + B := by
    have hdm := Nat.div_add_mod i B
    have hmod : i % B < B := Nat.mod_lt i hB
    have hcomm : i / B * B = B * (i / B) := Nat.mul_comm _ _
    generalize hz : i / B * B = z at hcomm ⊢
    generalize hx : B * (i / B) = x at hcomm hdm
    generalize hy : i % B = y at hdm hmod
    omega
  have hrp : rotPos N B (i / B) = i / B * B :=
    min_eq_left (mul_lt_of_lt_ticksPerCycle N B (i / B) hB hum).le
  have hnorm : cursorNorm N (i / B * B) = i / B * B := by
    unfold cursorNorm
    rw [if_neg (by
      have := mul_lt_of_lt_ticksPerCycle N B (i / B) hB hum
      omega)]
  by_cases hcase : t ≤ i / B
  · have hiter : (tickStep N B)^[i / B - t] (rotPos N B t)
        = rotPos N B (i / B) := by
      rw [iter_rotPos N B hB (i / B - t) t (by omega)]
      congr 1
      omega
    refine ⟨i / B - t, by omega, ?_, ?_⟩
    · rw [hiter, hrp, hnorm]
      exact huB
    · rw [hiter, hrp]
      show i < tickStep N B (i / B * B)
      unfold tickStep
      rw [hnorm]
      exact lt_min (by omega) hi
  · by_cases hu0 : 0 < i / B
    · have hiter : (tickStep N B)^[i / B + (ticksPerCycle N B - t)]
          (rotPos N B t) = rotPos N B (i / B) :=
        iter_rotPos_wrap N B t (i / B) hB ht (by omega) (by omega)
      refine ⟨i / B + (ticksPerCycle N B - t), by omega, ?_, ?_⟩
      · rw [hiter, hrp, hnorm]
        exact huB
      · rw [hiter, hrp]
        show i < tickStep N B (i / B * B)
        unfold tickStep
        rw [hnorm]
        exact lt_min (by omega) hi
    · have hdiv0 : i / B = 0 := Nat.le_zero.mp (Nat.not_lt.mp hu0)
      have ht1 : 1 ≤ t := by
        rw [hdiv0] at hcase
        omega
      have hiB : i < B := by
        have hdm := Nat.div_add_mod i B
        rw [hdiv0] at hdm
        have hmod : i % B < B := Nat.mod_lt i hB
        omega
      have hiter : (tickStep N B)^[ticksPerCycle N B - t] (rotPos N B t)
          = rotPos N B (ticksPerCycle N B) := by
        rw [iter_rotPos N B hB (ticksPerCycle N B - t) t (by omega)]
        congr 1
        omega
      have hrpm : rotPos N B (ticksPerCycle N B) = N :=
        min_eq_right (le_ticksPerCycle_mul N B hB)
      refine ⟨ticksPerCycle N B - t, by omega, ?_, ?_⟩
      · rw [hiter, hrpm]
        unfold cursorNorm
        rw [if_pos le_rfl]
        omega
      · rw [hiter, hrpm]
        show i < tickStep N B N
        unfold tickStep cursorNorm
        rw [if_pos le_rfl]
        exact lt_min (by omega) hi

/-- Filtering by non-membership in the empty selection keeps every
sensor. -/
theorem nonSelected_nil (sensors : List String) :
    nonSelected sensors [] = sensors := by
  unfold nonSelected
  rw [List.filter_eq_self]
  intro a ha
  rfl

/-- The cursor sequence of the loop is the iterate of the stored-cursor
step. -/
theorem cursorSeq_eq_iterate (sensors sel : List String) (B c : ℕ) :
    ∀ j, cursorSeq sensors sel B c j
      = (tickStep (nonSelected sensors sel).length B)^[j] c := by
  intro j
  induction j with
  | zero => rfl
  | succ j ih =>
    rw [show cursorSeq sensors sel B c (j + 1)
        = (tickBatch sensors sel (cursorSeq sensors sel B c j) B).2 from rfl,
      tickBatch_snd, ih, Function.iterate_succ_apply']

/-- The cursor sequence with empty selection, phrased over the universe
length. -/
theorem cursorSeq_nil_eq (sensors : List String) (B c j : ℕ) :
    cursorSeq sensors [] B c j = (tickStep sensors.length B)^[j] c := by
  rw [cursorSeq_eq_iterate, nonSelected_nil]

/-- With empty selection and a non-empty universe, a tick's queried names
are exactly the rotation slice. -/
theorem tickBatch_nil_fst (sensors : List String) (B c : ℕ)
    (hN : 0 < sensors.length) (hB : 0 < B) :
    (tickBatch sensors [] c B).1 =
      (sensors.take (tickStep sensors.length B c)).drop
        (cursorNorm sensors.length c) := by
  have hsN : cursorNorm sensors.length c < sensors.length := by
    unfold cursorNorm
    split <;> omega
  have hse : cursorNorm sensors.length c < tickStep sensors.length B c := by
    unfold tickStep
    exact lt_min (by omega) hsN
  have heN : tickStep sensors.length B c ≤ sensors.length :=
    min_le_right _ _
  have hlen : 0 < ((sensors.take (tickStep sensors.length B c)).drop
      (cursorNorm sensors.length c)).length := by
    rw [List.length_drop, List.length_take]
    omega
  simp only [tickBatch, nonSelected_nil, List.length_nil, lt_self_iff_false,
    if_false, List.nil_append]
  rw [if_pos hlen]
  rw [if_neg (by
    intro hcontra
    omega)]

/-- An element of a list at an index inside a slice's bounds is a member
of the slice. -/
theorem getElem_mem_take_drop {α : Type} (l : List α) (a b i : ℕ)
    (hil : i < l.length) (hai : a ≤ i) (hib : i < b) :
    l[i] ∈ (l.take b).drop a := by
  have hlen : i - a < ((l.take b).drop a).length := by
    rw [List.length_drop, List.length_take]
    omega
  rw [List.mem_iff_getElem]
  refine ⟨i - a, hlen, ?_⟩
  rw [List.getElem_drop, List.getElem_take]
  congr 1
  omega

/-- C2: for any universe and positive batch size, starting from any cursor
value reachable under that fixed universe with empty selection, every
sensor appears in the queried names of some tick within
`ceil(N / B)` consecutive ticks; and for a universe of 150 sensors with
batch size 60, the four consecutive ticks from cursor 0 query batches of
sizes 60, 60, 30, 60. -/
theorem c2_rotation_coverage (sensors : List String) (B : ℕ) (hB : 0 < B) :
    (∀ c, (∃ k, c = cursorSeq sensors [] B 0 k) →
      ∀ s ∈ sensors, ∃ j, j < ticksPerCycle sensors.length B ∧
        s ∈ (tickBatch sensors [] (cursorSeq sensors [] B c j) B).1)
    ∧ (sensors.length = 150 → B = 60 →
        (List.range 4).map (fun j =>
          ((tickBatch sensors [] (cursorSeq sensors [] B 0 j) B).1).length)
          = [60, 60, 30, 60]) := by
  constructor
  · intro c hc s hs
    obtain ⟨k, hk⟩ := hc
    have hN : 0 < sensors.length :=
      List.length_pos.mpr (List.ne_nil_of_mem hs)
    obtain ⟨t, ht, hct⟩ := reachable_rotPos sensors.length B hB hN k
    have hceq : c = rotPos sensors.length B t := by
      rw [hk, cursorSeq_nil_eq]
      exact hct
    obtain ⟨i, hil, hie⟩ := List.mem_iff_getElem.mp hs
    obtain ⟨j, hj, hnorm, hstep⟩ :=
      coverage_core sensors.length B t i hB hN ht hil
    refine ⟨j, hj, ?_⟩
    have hcur : cursorSeq sensors [] B c j
        = (tickStep sensors.length B)^[j] (rotPos sensors.length B t) := by
      rw [cursorSeq_nil_eq, hceq]
    rw [tickBatch_nil_fst sensors B (cursorSeq sensors [] B c j) hN hB,
      hcur, ← hie]
    exact getElem_mem_take_drop sensors _ _ i hil hnorm hstep
  · intro h150 h60
    subst h60
    have hN : (0 : ℕ) < sensors.length := by omega
    have hB60 : (0 : ℕ) < 60 := by norm_num
    have hlenTick : ∀ c, ((tickBatch sensors [] c 60).1).length
        = tickStep sensors.length 60 c - cursorNorm sensors.length c := by
      intro c
      rw [tickBatch_nil_fst sensors 60 c hN hB60,
        List.length_drop, List.length_take]
      have h1 : tickStep sensors.length 60 c ≤ sensors.length :=
        min_le_right _ _
      omega
    have hstepc : ∀ c, cursorSeq sensors [] 60 0 (c + 1)
        = tickStep sensors.length 60 (cursorSeq sensors [] 60 0 c) := by
      intro c
      rw [show cursorSeq sensors [] 60 0 (c + 1)
          = (tickBatch sensors [] (cursorSeq sensors [] 60 0 c) 60).2
          from rfl, tickBatch_snd, nonSelected_nil]
    have hc0 : cursorSeq sensors [] 60 0 0 = 0 := rfl
    have hc1 : cursorSeq sensors [] 60 0 1 = 60 := by
      rw [hstepc 0, hc0]
      unfold tickStep cursorNorm
      rw [h150]
      norm_num
    have hc2 : cursorSeq sensors [] 60 0 2 = 120 := by
      rw [hstepc 1, hc1]
      unfold tickStep cursorNorm
      rw [h150]
      norm_num
    have hc3 : cursorSeq sensors [] 60 0 3 = 150 := by
      rw [hstepc 2, hc2]
      unfold tickStep cursorNorm
      rw [h150]
      norm_num
    have hr : List.range 4 = [0, 1, 2, 3] := rfl
    rw [hr]
    simp only [List.map_cons, List.map_nil]
    rw [hlenTick, hlenTick, hlenTick, hlenTick, hc0, hc1, hc2, hc3]
    unfold tickStep cursorNorm
    rw [h150]
    norm_num

/-- Witness for C2 at a concrete one-sensor universe with batch size 1:
the sensor is covered within one cycle starting from the reachable
cursor 0. -/
theorem c2_rotation_coverage_witness :
    ∃ j, j < ticksPerCycle (List.length ["x"]) 1 ∧
      "x" ∈ (tickBatch ["x"] [] (cursorSeq ["x"] [] 1 0 j) 1).1 :=
  (c2_rotation_coverage ["x"] 1 (by norm_num)).1 0 ⟨0, rfl⟩ "x" (by simp)

end GroovSync
